import Mathlib

/-!
Verification of the resilient extraction & normalization pipeline of the
DataEnrich application (src/app/page.tsx).

The TypeScript source manipulates untyped JSON-like values; we embed those as
the inductive `JsonValue` (the tagged variant suggested by the spec's design
notes).  JavaScript numbers are modelled as `Int` (every numeral appearing in
the relevant code paths is integral).  The two external JSON decoders
(`parseLLMJson` and `JSON.parse`) are not part of this repository; both are
modelled as an explicit function parameter `String → Option JsonValue`.

JavaScript string primitives used by the source (`toLowerCase`, `trim`,
`split`, regular-expression tests, lexicographic `<`) are re-implemented here
on character lists so that every definition evaluates by kernel reduction.
`String(x)` coercion is `jsToString`; `Number(x)` coercion is `jsNumber`
(restricted to integral literals, the only shape exercised by the claims).
-/

namespace Enricher

/-! ## JSON-like values -/

inductive JsonValue where
  | jnull
  | jbool (b : Bool)
  | jnum (n : Int)
  | jstr (s : String)
  | jarr (elems : List JsonValue)
  | jobj (fields : List (String × JsonValue))
  deriving Repr

open JsonValue

/-- Association-list lookup used to model JavaScript property access. -/
def lookupField : List (String × JsonValue) → String → Option JsonValue
  | [], _ => none
  | (k, w) :: rest, key => if k == key then some w else lookupField rest key

/-- `obj.key` / `obj[key]`: `none` models the JavaScript `undefined`. -/
def jget : JsonValue → String → Option JsonValue
  | .jobj fields, key => lookupField fields key
  | _, _ => none

/-- `'key' in obj`: property presence, regardless of the stored value. -/
def hasKey (v : JsonValue) (k : String) : Bool :=
  match v with
  | .jobj fields => fields.any (fun p => p.1 == k)
  | _ => false

/-- JavaScript falsiness of a JSON value (`!obj`). -/
def isFalsy : JsonValue → Bool
  | .jnull => true
  | .jbool b => !b
  | .jnum n => n == 0
  | .jstr s => s == ""
  | .jarr _ => false
  | .jobj _ => false

/-- `typeof v === 'object' && v !== null` (arrays included). -/
def isObjLike : JsonValue → Bool
  | .jobj _ => true
  | .jarr _ => true
  | _ => false

def isNullV : JsonValue → Bool
  | .jnull => true
  | _ => false

/-- Optional-chaining walk `v.k1?.k2?...`. -/
def jpath (v : JsonValue) : List String → Option JsonValue
  | [] => some v
  | k :: rest =>
    match jget v k with
    | some w => jpath w rest
    | none => none

/-! ## JavaScript string primitives, re-implemented on character lists -/

/-- ASCII lower-casing of a character (the semantics of Lean's and, for the
ASCII keywords compared by the source, JavaScript's lower-casing). -/
def lowerChar (c : Char) : Char :=
  if 'A' ≤ c ∧ c ≤ 'Z' then Char.ofNat (c.toNat + 32) else c

/-- Model of `String.prototype.toLowerCase`. -/
def lowerStr (s : String) : String := String.mk (s.data.map lowerChar)

def isWs (c : Char) : Bool := c == ' ' || c == '\t' || c == '\n' || c == '\r'

/-- Model of `String.prototype.trim`. -/
def trimStr (s : String) : String :=
  String.mk (((s.data.dropWhile isWs).reverse.dropWhile isWs).reverse)

def splitCommaAux : List Char → List Char → List String
  | [], cur => [String.mk cur.reverse]
  | c :: rest, cur =>
    if c == ',' then String.mk cur.reverse :: splitCommaAux rest []
    else splitCommaAux rest (c :: cur)

/-- Model of `s.split(',')`. -/
def splitComma (s : String) : List String := splitCommaAux s.data []

/-- Lexicographic `≤` on code points: JavaScript's string comparison. -/
def lexLe : List Char → List Char → Bool
  | [], _ => true
  | _ :: _, [] => false
  | a :: as, b :: bs =>
    if a.toNat < b.toNat then true
    else if b.toNat < a.toNat then false
    else lexLe as bs

def strLe (s t : String) : Bool := lexLe s.data t.data

def isPrefixB : List Char → List Char → Bool
  | [], _ => true
  | _ :: _, [] => false
  | a :: as, b :: bs => a == b && isPrefixB as bs

/-- Substring search, used to model `/needle/i.test(hay)` after lower-casing. -/
def containsSub (hay needle : List Char) : Bool :=
  match hay with
  | [] => isPrefixB needle []
  | _ :: rest => isPrefixB needle hay || containsSub rest needle

/-- Model of a case-insensitive regular-expression substring test such as
`/low/i.test(s)`; `needle` is given in lower case. -/
def containsCI (s needle : String) : Bool :=
  containsSub (lowerStr s).data needle.data

/-! ## `String(x)` and `Number(x)` coercions -/

/-- `String(x)` for the modelled values.  Arrays print as their comma-joined
elements with `null` elements contributing the empty string, objects as
`"[object Object]"`, exactly as in JavaScript. -/
def jsToString : JsonValue → String
  | .jnull => "null"
  | .jbool true => "true"
  | .jbool false => "false"
  | .jnum n => toString n
  | .jstr s => s
  | .jobj _ => "[object Object]"
  | .jarr [] => ""
  | .jarr [x] => if isNullV x then "" else jsToString x
  | .jarr (x :: y :: rest) =>
    (if isNullV x then "" else jsToString x) ++ "," ++ jsToString (.jarr (y :: rest))
termination_by v => sizeOf v
decreasing_by all_goals (simp_wf <;> omega)

def digitsToNat : List Char → Option Nat
  | [] => none
  | cs =>
    cs.foldl
      (fun acc c =>
        match acc with
        | none => none
        | some n => if '0' ≤ c ∧ c ≤ '9' then some (n * 10 + (c.toNat - 48)) else none)
      (some 0)

/-- `Number(s)` for a string, restricted to the integral literals exercised
here: blank strings coerce to `0`, optionally signed digit strings to their
value, anything else to NaN (`none`). -/
def strToNumber (s : String) : Option Int :=
  match (trimStr s).data with
  | [] => some 0
  | '-' :: ds => (digitsToNat ds).map (fun n => -(n : Int))
  | '+' :: ds => (digitsToNat ds).map (fun n => (n : Int))
  | ds => (digitsToNat ds).map (fun n => (n : Int))

/-- `Number(v)`; `none` models NaN.  Arrays coerce through their string form,
plain objects to NaN, as in JavaScript. -/
def jsNumberV : JsonValue → Option Int
  | .jnull => some 0
  | .jbool b => some (cond b 1 0)
  | .jnum n => some n
  | .jstr s => strToNumber s
  | .jarr xs => strToNumber (jsToString (.jarr xs))
  | .jobj _ => none

/-- `Number(x)` where `x` may be an absent property (`Number(undefined)` is
NaN). -/
def jsNumber : Option JsonValue → Option Int
  | none => none
  | some v => jsNumberV v

/-! ## Delimited-text parser (`parseCSV` / `parseCSVLine`, page.tsx 82–135) -/

/-- The quoted-field splitter `parseCSVLine`: two-state character machine. -/
def parseCSVLineAux : List Char → Bool → String → List String → List String
  | [], _, cur, acc => acc ++ [cur]
  | '"' :: '"' :: rest, true, cur, acc => parseCSVLineAux rest true (cur.push '"') acc
  | '"' :: rest, true, cur, acc => parseCSVLineAux rest false cur acc
  | c :: rest, true, cur, acc => parseCSVLineAux rest true (cur.push c) acc
  | '"' :: rest, false, cur, acc => parseCSVLineAux rest true cur acc
  | ',' :: rest, false, cur, acc => parseCSVLineAux rest false "" (acc ++ [cur])
  | c :: rest, false, cur, acc => parseCSVLineAux rest false (cur.push c) acc

def parseCSVLine (line : String) : List String :=
  parseCSVLineAux line.data false "" []

/-- Split on `\r?\n` (a lone `\r` does not split, as with the source regex). -/
def splitRN : List Char → List (List Char)
  | [] => [[]]
  | '\r' :: '\n' :: rest => [] :: splitRN rest
  | '\n' :: rest => [] :: splitRN rest
  | c :: rest =>
    match splitRN rest with
    | [] => [[c]]
    | l :: ls => (c :: l) :: ls

/-- `text.split(/\r?\n/).filter(l => l.trim().length > 0)`. -/
def nonBlankLines (text : String) : List String :=
  ((splitRN text.data).map String.mk).filter (fun l => !(trimStr l == ""))

/-- Strip one leading straight quote (double or single). -/
def stripLead (cs : List Char) : List Char :=
  match cs with
  | c :: rest => if c == '"' || c == Char.ofNat 39 then rest else cs
  | [] => []

/-- `h.replace(/^["']|["']$/g, '')`: one leading and one trailing quote. -/
def stripOuterQuotes (s : String) : String :=
  String.mk ((stripLead (stripLead s.data).reverse).reverse)

/-- A character matched by the regex dot (anything but a line terminator). -/
def dotChar (c : Char) : Bool :=
  !(c == '\n' || c == '\r' || c.toNat == 0x2028 || c.toNat == 0x2029)

def dropPfx : List Char → List Char → Option (List Char)
  | [], t => some t
  | _ :: _, [] => none
  | a :: as, c :: cs => if a == c then dropPfx as cs else none

/-- Match of `a.?b` against the whole string `t` (regex dot optional). -/
def optCharMatch (a b : String) (t : String) : Bool :=
  match dropPfx a.data t.data with
  | some rest =>
    rest == b.data ||
      (match rest with
       | c :: rest2 => dotChar c && rest2 == b.data
       | [] => false)
  | none => false

/-- `/^(name|full.?name|contact.?name|person)$/i.test(h)`. -/
def isNameHeader (h : String) : Bool :=
  let t := lowerStr h
  t == "name" || optCharMatch "full" "name" t || optCharMatch "contact" "name" t
    || t == "person"

/-- `/^(company|organization|org|company.?name|employer)$/i.test(h)`. -/
def isCompanyHeader (h : String) : Bool :=
  let t := lowerStr h
  t == "company" || t == "organization" || t == "org"
    || optCharMatch "company" "name" t || t == "employer"

/-- A parsed row: JavaScript object from header names (and the two logical
fields) to cell strings, in insertion order. -/
abbrev RowMap := List (String × String)

/-- `row[k] = v`: update in place when present, append otherwise. -/
def rowSet (row : RowMap) (k v : String) : RowMap :=
  if row.any (fun p => p.1 == k) then
    row.map (fun p => if p.1 == k then (p.1, v) else p)
  else row ++ [(k, v)]

def rowGet (row : RowMap) (k : String) : String :=
  match row.find? (fun p => p.1 == k) with
  | some p => p.2
  | none => ""

/-- `idx >= 0 && idx < values.length ? values[idx].trim() :
values[fb]?.trim() ?? ''`. -/
def resolveAt (values : List String) (idx : Option Nat) (fb : Nat) : String :=
  match idx with
  | some i =>
    if i < values.length then trimStr (values.getD i "")
    else trimStr (values.getD fb "")
  | none => trimStr (values.getD fb "")

/-- One step of the `headers.forEach` copy loop (`row[h] = values[idx].trim()`
whenever `idx < values.length`). -/
def copyStep (values : List String) (acc : RowMap) (p : Nat × String) : RowMap :=
  if p.1 < values.length then rowSet acc p.2 (trimStr (values.getD p.1 "")) else acc

/-- The `headers.forEach` copy loop of `parseCSV`. -/
def applyHeaderCopies (headers values : List String) (row : RowMap) : RowMap :=
  headers.enum.foldl (copyStep values) row

def buildRow (headers : List String) (nIdx cIdx : Option Nat) (values : List String) :
    RowMap :=
  applyHeaderCopies headers values
    [("name", resolveAt values nIdx 0), ("company", resolveAt values cIdx 1)]

def parseHeaders (headerLine : String) : List String :=
  (splitComma headerLine).map (fun h => stripOuterQuotes (trimStr h))

/-- The per-line body of `parseCSV`'s loop: skip when the splitter produced no
values, build the row, keep it when name or company is non-empty. -/
def csvRowOf (headers : List String) (nIdx cIdx : Option Nat) (line : String) :
    Option RowMap :=
  let values := parseCSVLine line
  if values.isEmpty then none
  else
    let row := buildRow headers nIdx cIdx values
    if !(rowGet row "name" == "") || !(rowGet row "company" == "") then some row
    else none

/-- `parseCSV` (page.tsx 82–105). -/
def parseCSV (text : String) : List RowMap :=
  let lines := nonBlankLines text
  if lines.length < 2 then []
  else
    match lines with
    | [] => []
    | headerLine :: dataLines =>
      let headers := parseHeaders headerLine
      dataLines.filterMap
        (csvRowOf headers (headers.findIdx? isNameHeader) (headers.findIdx? isCompanyHeader))

/-! ## Deep extraction engine (`deepExtractEnrichedData`, page.tsx 388–443)

The source recursion is bounded by the guard `depth > 10`.  We realise the
same function by structural recursion on the remaining budget
`fuel = 11 - depth`, so that `deepExtract decode v depth` evaluates by kernel
reduction; `extractGo decode 0` is exactly the guard's early return and
`bodyStep` is the literal translation of the function body, with `recur`
standing for the recursive call at `depth + 1`. -/

structure ExtractionResult where
  enriched : List JsonValue
  summary : JsonValue
  artifacts : List JsonValue
  deriving Repr

def emptyResult : ExtractionResult := ⟨[], .jnull, []⟩

/-- `obj.summary ?? null`. -/
def jsummaryOf (v : JsonValue) : JsonValue := (jget v "summary").getD .jnull

/-- `Array.isArray(obj.artifact_files) ? obj.artifact_files : []`. -/
def jartifactsOf (v : JsonValue) : List JsonValue :=
  match jget v "artifact_files" with
  | some (.jarr xs) => xs
  | _ => []

/-- The structural guard of step 3: a non-empty array whose first element is an
object with at least one subject attribute and one enrichment attribute. -/
def arrayRecordPattern : JsonValue → Bool
  | .jarr (x :: _) =>
    isObjLike x && (hasKey x "name" || hasKey x "company") &&
      (hasKey x "revenue" || hasKey x "sector" || hasKey x "decision_maker")
  | _ => false

def arrElems : JsonValue → List JsonValue
  | .jarr xs => xs
  | _ => []

def wrapperKeys : List String :=
  ["result", "response", "data", "output", "content", "message", "text"]

/-- `obj[key] != null` (loose inequality: excludes both null and undefined). -/
def notNullish : Option JsonValue → Option JsonValue
  | some .jnull => none
  | some w => some w
  | none => none

/-- The non-nullish values stored under the generic wrapper keys, in probe
order. -/
def wrapperVals (v : JsonValue) : List JsonValue :=
  wrapperKeys.filterMap (fun k => notNullish (jget v k))

/-- `typeof obj[key] === 'object' && obj[key] !== null` over all keys, in
enumeration order (for an array, over its elements). -/
def jchildren : JsonValue → List JsonValue
  | .jobj fields => (fields.map Prod.snd).filter isObjLike
  | .jarr elems => elems.filter isObjLike
  | _ => []

/-- A probe loop: return the first recursive result with a non-empty enriched
set, else the empty result. -/
def extractList (f : JsonValue → ExtractionResult) : List JsonValue → ExtractionResult
  | [] => emptyResult
  | v :: rest =>
    let r := f v
    if r.enriched.isEmpty then extractList f rest else r

/-- One unfolding of `deepExtractEnrichedData`'s body; `recur` is the call at
`depth + 1`. -/
def bodyStep (decode : String → Option JsonValue) (recur : JsonValue → ExtractionResult)
    (v : JsonValue) : ExtractionResult :=
  if isFalsy v then emptyResult
  else
    match v with
    | .jstr s =>
      (match decode s with
       | some p => if isObjLike p then recur p else emptyResult
       | none => emptyResult)
    | .jnull => emptyResult
    | .jbool _ => emptyResult
    | .jnum _ => emptyResult
    | w =>
      (match jget w "enriched_data" with
       | some (.jarr (x :: xs)) => ⟨x :: xs, jsummaryOf w, jartifactsOf w⟩
       | _ =>
         if arrayRecordPattern w then ⟨arrElems w, .jnull, []⟩
         else
           let r := extractList recur (wrapperVals w)
           if r.enriched.isEmpty then
             (match jget w "enriched_data" with
              | some (.jarr xs) => ⟨xs, jsummaryOf w, []⟩
              | _ => extractList recur (jchildren w))
           else r)

def extractGo (decode : String → Option JsonValue) : Nat → JsonValue → ExtractionResult
  | 0 => fun _ => emptyResult
  | fuel + 1 => fun v => bodyStep decode (extractGo decode fuel) v

/-- `deepExtractEnrichedData(obj, depth)`. -/
def deepExtract (decode : String → Option JsonValue) (v : JsonValue) (depth : Nat) :
    ExtractionResult :=
  extractGo decode (11 - depth) v

/-! ## Artifact locator (`extractArtifactFiles`, page.tsx 446–469) -/

/-- `Array.isArray(o) && o.length > 0` for an optionally-present value. -/
def isNonEmptyArr : Option JsonValue → Bool
  | some (.jarr (_ :: _)) => true
  | _ => false

/-- `Array.isArray(o)` for an optionally-present value. -/
def isArrOpt : Option JsonValue → Bool
  | some (.jarr _) => true
  | _ => false

/-- The array stored at a probe, empty when the probe is not an array. -/
def probeArr : Option JsonValue → List JsonValue
  | some (.jarr ys) => ys
  | _ => []

/-- `extractArtifactFiles(result)`; `decodeStrict` models `JSON.parse`, whose
throw is `none` (swallowed by the source's try/catch).  Note that the first
two probes require a non-empty array while the raw-response probes only
require `Array.isArray`. -/
def extractArtifactFiles (decodeStrict : String → Option JsonValue)
    (result : JsonValue) : List JsonValue :=
  if isFalsy result then []
  else if isNonEmptyArr (jpath result ["module_outputs", "artifact_files"]) then
    probeArr (jpath result ["module_outputs", "artifact_files"])
  else if isNonEmptyArr (jpath result ["response", "module_outputs", "artifact_files"]) then
    probeArr (jpath result ["response", "module_outputs", "artifact_files"])
  else
    match jget result "raw_response" with
    | some (.jstr s) =>
      if s == "" then []
      else
        match decodeStrict s with
        | some raw =>
          if isArrOpt (jpath raw ["module_outputs", "artifact_files"]) then
            probeArr (jpath raw ["module_outputs", "artifact_files"])
          else if isArrOpt (jpath raw ["response", "module_outputs", "artifact_files"]) then
            probeArr (jpath raw ["response", "module_outputs", "artifact_files"])
          else []
        | none => []
    | _ => []

/-! ## Record normalizer and summary (page.tsx 599–621) -/

structure EnrichedRecord where
  name : String
  company : String
  revenue : String
  sector : String
  decision_maker : String
  job_title : String
  confidence : String
  deriving Repr, DecidableEq

/-- `String(r.k1 ?? r.k2 ?? ... ?? dflt)`: the nullish-coalescing alias chain
followed by string coercion. -/
def aliasStr (r : JsonValue) : List String → String → String
  | [], dflt => dflt
  | k :: rest, dflt =>
    match jget r k with
    | some v => if isNullV v then aliasStr r rest dflt else jsToString v
    | none => aliasStr r rest dflt

/-- One element of `normalizedEnriched` (page.tsx 599–607). -/
def normalizeRecord (r : JsonValue) : EnrichedRecord :=
  { name := aliasStr r ["name", "person_name", "contact_name", "full_name"] ""
    company := aliasStr r ["company", "company_name", "organization"] ""
    revenue := aliasStr r ["revenue", "company_revenue", "annual_revenue"] "N/A"
    sector := aliasStr r ["sector", "industry", "company_sector"] "N/A"
    decision_maker := aliasStr r ["decision_maker", "is_decision_maker", "decisionMaker"] "N/A"
    job_title := aliasStr r ["job_title", "title", "role", "position", "jobTitle"] "N/A"
    confidence := aliasStr r ["confidence", "confidence_level", "confidenceLevel"] "Low" }

def normalizeAll (enriched : List JsonValue) : List EnrichedRecord :=
  enriched.map normalizeRecord

structure EnrichmentSummary where
  total_records : Int
  decision_makers_found : Int
  low_confidence_count : Int
  high_confidence_rate : String
  deriving Repr, DecidableEq

/-- `Number(x) || d`: NaN and 0 are falsy, so both fall back to `d`. -/
def numOr (x : Option Int) (d : Int) : Int :=
  match x with
  | some n => if n = 0 then d else n
  | none => d

/-- `String(x ?? '0%')`. -/
def rateStr (x : Option JsonValue) : String :=
  match x with
  | some v => if isNullV v then "0%" else jsToString v
  | none => "0%"

/-- The supplied-summary branch (page.tsx 611–615). -/
def mkSummary (summaryData : JsonValue) (count : Nat) : EnrichmentSummary :=
  { total_records := numOr (jsNumber (jget summaryData "total_records")) count
    decision_makers_found := numOr (jsNumber (jget summaryData "decision_makers_found")) 0
    low_confidence_count := numOr (jsNumber (jget summaryData "low_confidence_count")) 0
    high_confidence_rate := rateStr (jget summaryData "high_confidence_rate") }

/-- `Math.round((h / n) * 100)` for natural `h ≤ n`, as exact rational
rounding (the float computation of the source agrees on these magnitudes). -/
def pctRound (h n : Nat) : Nat := (200 * h + n) / (2 * n)

/-- The derived-summary branch (page.tsx 616–621). -/
def deriveSummary (recs : List EnrichedRecord) : EnrichmentSummary :=
  { total_records := (recs.length : Int)
    decision_makers_found := ((recs.filter (fun r => containsCI r.decision_maker "yes")).length : Int)
    low_confidence_count := ((recs.filter (fun r => containsCI r.confidence "low")).length : Int)
    high_confidence_rate :=
      if recs.length > 0 then
        toString (pctRound (recs.filter (fun r => containsCI r.confidence "high")).length recs.length) ++ "%"
      else "0%" }

/-- `summaryData ? coerced : derived` (page.tsx 611–621). -/
def finalSummary (summaryData : JsonValue) (normalized : List EnrichedRecord) :
    EnrichmentSummary :=
  if isFalsy summaryData then deriveSummary normalized
  else mkSummary summaryData normalized.length

/-! ## Query engine (`getFilteredData`, page.tsx 649–665) -/

inductive FilterMode where
  | all
  | low_confidence
  | decision_makers
  deriving Repr, DecidableEq

inductive SortField where
  | name
  | company
  | revenue
  | sector
  | confidence
  | job_title
  | decision_maker
  deriving Repr, DecidableEq

inductive SortDir where
  | asc
  | desc
  deriving Repr, DecidableEq

def fieldVal (f : SortField) (r : EnrichedRecord) : String :=
  match f with
  | .name => r.name
  | .company => r.company
  | .revenue => r.revenue
  | .sector => r.sector
  | .confidence => r.confidence
  | .job_title => r.job_title
  | .decision_maker => r.decision_maker

/-- `(a[sortField] ?? '').toString().toLowerCase()`. -/
def sortKey (f : SortField) (r : EnrichedRecord) : String := lowerStr (fieldVal f r)

/-- `comparator(a,b) ≤ 0` for the source's three-way comparator. -/
def sortLe (f : SortField) (d : SortDir) (a b : EnrichedRecord) : Bool :=
  match d with
  | .asc => strLe (sortKey f a) (sortKey f b)
  | .desc => strLe (sortKey f b) (sortKey f a)

def applyFilter : FilterMode → List EnrichedRecord → List EnrichedRecord
  | .all, data => data
  | .low_confidence, data => data.filter (fun r => containsCI r.confidence "low")
  | .decision_makers, data => data.filter (fun r => containsCI r.decision_maker "yes")

/-- Stable insertion: `x` goes before the first element not strictly below it.
`Array.prototype.sort` is specified (ES2019) to be stable, and a stable sort's
output is uniquely determined by the comparator, so insertion sort is a
faithful model of the source's `filtered.sort(comparator)`. -/
def insertStable (le : EnrichedRecord → EnrichedRecord → Bool) (x : EnrichedRecord) :
    List EnrichedRecord → List EnrichedRecord
  | [] => [x]
  | b :: bs => if le x b then x :: b :: bs else b :: insertStable le x bs

def stableSort (le : EnrichedRecord → EnrichedRecord → Bool) :
    List EnrichedRecord → List EnrichedRecord
  | [] => []
  | x :: xs => insertStable le x (stableSort le xs)

/-- `getFilteredData` for a given record collection and filter/sort state. -/
def getFilteredData (mode : FilterMode) (f : SortField) (d : SortDir)
    (data : List EnrichedRecord) : List EnrichedRecord :=
  stableSort (sortLe f d) (applyFilter mode data)

/-! ## Spec-side descriptions used to state (or refute) the claims -/

/-- Spec-side description (§4.3): the first alias present and non-null. -/
def firstPresent (r : JsonValue) : List String → Option JsonValue
  | [] => none
  | k :: rest =>
    match jget r k with
    | some v => if isNullV v then firstPresent r rest else some v
    | none => firstPresent r rest

/-- A 15-level-deep nested object with an enrichment payload at the bottom. -/
def nestedObj : Nat → JsonValue
  | 0 => .jobj [("enriched_data", .jarr [.jobj [("name", .jstr "Jane"), ("revenue", .jstr "$1M")]])]
  | k + 1 => .jobj [("level", nestedObj k)]

/-- The last in-range write of the copy loop targeting key `k`, with the
written value. -/
def lastWrite (values : List String) (k : String) (pairs : List (Nat × String)) :
    Option String :=
  ((pairs.filter (fun p => decide (p.1 < values.length) && p.2 == k)).getLast?).map
    (fun p => trimStr (values.getD p.1 ""))

/-- Claim-side header detection: exact case-insensitive equality against the
six listed aliases (the claim's reading of the source regex). -/
def claimNameIdx (headers : List String) : Option Nat :=
  headers.findIdx? (fun h =>
    let t := lowerStr h
    t == "name" || t == "full name" || t == "full.name" || t == "contact name"
      || t == "contact.name" || t == "person")

/-- Claim-side resolution of the row's name field. -/
def claimResolvedName (headers values : List String) : String :=
  match claimNameIdx headers with
  | some i =>
    if i < values.length then trimStr (values.getD i "") else trimStr (values.getD 0 "")
  | none => trimStr (values.getD 0 "")

/-- Whether both the resolved name and the resolved company of a data line's
row are empty (after trimming): such rows are discarded. -/
def rowBothEmpty (headers : List String) (nIdx cIdx : Option Nat) (line : String) :
    Bool :=
  rowGet (buildRow headers nIdx cIdx (parseCSVLine line)) "name" == "" &&
    rowGet (buildRow headers nIdx cIdx (parseCSVLine line)) "company" == ""

/-- Claim-side artifact locator: the first NON-empty artifact array over the
four probes in order, empty-sequence otherwise. -/
def claimArtifactLocate (decodeStrict : String → Option JsonValue)
    (result : JsonValue) : List JsonValue :=
  let candidates :=
    [probeArr (jpath result ["module_outputs", "artifact_files"]),
     probeArr (jpath result ["response", "module_outputs", "artifact_files"])] ++
    (match jget result "raw_response" with
     | some (.jstr s) =>
       (match decodeStrict s with
        | some raw =>
          [probeArr (jpath raw ["module_outputs", "artifact_files"]),
           probeArr (jpath raw ["response", "module_outputs", "artifact_files"])]
        | none => [])
     | _ => [])
  match candidates.find? (fun c => !c.isEmpty) with
  | some c => c
  | none => []

def cexFile : JsonValue := .jobj [("file_url", .jstr "https://x/enriched.csv")]

def cexRaw : JsonValue :=
  .jobj [("module_outputs", .jobj [("artifact_files", .jarr [])]),
         ("response", .jobj [("module_outputs",
            .jobj [("artifact_files", .jarr [cexFile])])])]

def cexDecode : String → Option JsonValue :=
  fun s => if s == "RAW" then some cexRaw else none

def cexEnvelope : JsonValue := .jobj [("raw_response", .jstr "RAW")]

/-! ## Helper lemmas -/

theorem nestedObj_isObjLike (k : Nat) : isObjLike (nestedObj k) = true := by
  cases k <;> rfl

theorem extractGo_nestedObj_empty (decode : String → Option JsonValue) :
    ∀ fuel k, fuel ≤ k → extractGo decode fuel (nestedObj k) = emptyResult := by
  intro fuel
  induction fuel with
  | zero => intro k _; rfl
  | succ n ih =>
    intro k hk
    match k with
    | k' + 1 =>
      have hih := ih k' (by omega)
      show bodyStep decode (extractGo decode n) (.jobj [("level", nestedObj k')]) = emptyResult
      simp [bodyStep, isFalsy, jget, lookupField, arrayRecordPattern, wrapperVals,
        wrapperKeys, notNullish, extractList, jchildren, jsummaryOf, jartifactsOf,
        nestedObj_isObjLike, hih, emptyResult]

theorem aliasStr_firstPresent (r : JsonValue) (keys : List String) (dflt : String) :
    aliasStr r keys dflt =
      (match firstPresent r keys with
       | some v => jsToString v
       | none => dflt) := by
  induction keys with
  | nil => rfl
  | cons k rest ih =>
    simp only [aliasStr, firstPresent]
    cases h : jget r k with
    | none => exact ih
    | some v =>
      cases hv : isNullV v with
      | true => simp [hv, ih]
      | false => simp [hv]

/-! ## Claim C1 -/

/-- C1: `deepExtractEnrichedData` is total (it is a Lean function), returns
the empty `ExtractionResult` (no enriched records, null summary, no
artifacts) as soon as `depth > 10`, and — since every recursive call runs
at `depth + 1` — terminates on a 15-level-deep nested object with the empty
result even though an enrichment payload sits at the bottom. -/
theorem extraction_depth_bounded :
    (∀ (decode : String → Option JsonValue) (v : JsonValue) (depth : Nat),
        10 < depth → deepExtract decode v depth = emptyResult)
  ∧ (∀ decode : String → Option JsonValue,
        deepExtract decode (nestedObj 15) 0 = emptyResult) := by
  constructor
  · intro decode v depth h
    unfold deepExtract
    have h0 : 11 - depth = 0 := by omega
    rw [h0]
    rfl
  · intro decode
    exact extractGo_nestedObj_empty decode 11 15 (by omega)

/-- Witness for C1 at depth 11 on a value that would otherwise match
directly. -/
theorem extraction_depth_bounded_witness :
    deepExtract (fun _ => none)
      (.jobj [("enriched_data", .jarr [.jobj [("name", .jstr "J")]])]) 11 = emptyResult :=
  extraction_depth_bounded.1 (fun _ => none) _ 11 (by decide)

/-! ## Claim C3 -/

/-- C3 counterexample: a raw record with no accepted alias for `name` is
normalized to the empty string, not to `"N/A"` as the claim states. -/
theorem normalize_default_counterexample :
    (normalizeRecord (.jobj [])).name = "" ∧ (normalizeRecord (.jobj [])).name ≠ "N/A" := by
  exact ⟨rfl, by decide⟩

/-- C3 amended: normalization always yields all seven fields as strings; each
field takes the textual coercion of the first alias present and non-null, and
otherwise its default — `"N/A"` for revenue, sector, decision_maker and
job_title, `"Low"` for confidence, but the empty string (not `"N/A"`) for
name and company. -/
theorem normalize_alias_resolution (r : JsonValue) :
    ((normalizeRecord r).name =
      (match firstPresent r ["name", "person_name", "contact_name", "full_name"] with
       | some v => jsToString v
       | none => ""))
  ∧ ((normalizeRecord r).company =
      (match firstPresent r ["company", "company_name", "organization"] with
       | some v => jsToString v
       | none => ""))
  ∧ ((normalizeRecord r).revenue =
      (match firstPresent r ["revenue", "company_revenue", "annual_revenue"] with
       | some v => jsToString v
       | none => "N/A"))
  ∧ ((normalizeRecord r).sector =
      (match firstPresent r ["sector", "industry", "company_sector"] with
       | some v => jsToString v
       | none => "N/A"))
  ∧ ((normalizeRecord r).decision_maker =
      (match firstPresent r ["decision_maker", "is_decision_maker", "decisionMaker"] with
       | some v => jsToString v
       | none => "N/A"))
  ∧ ((normalizeRecord r).job_title =
      (match firstPresent r ["job_title", "title", "role", "position", "jobTitle"] with
       | some v => jsToString v
       | none => "N/A"))
  ∧ ((normalizeRecord r).confidence =
      (match firstPresent r ["confidence", "confidence_level", "confidenceLevel"] with
       | some v => jsToString v
       | none => "Low")) :=
  ⟨aliasStr_firstPresent r _ _, aliasStr_firstPresent r _ _, aliasStr_firstPresent r _ _,
   aliasStr_firstPresent r _ _, aliasStr_firstPresent r _ _, aliasStr_firstPresent r _ _,
   aliasStr_firstPresent r _ _⟩

/-! ## Claim C4 -/

/-- C4 counterexample: the agent-supplied `total_records = 0` is present and
numeric, yet the fallback (the normalized-record count, here 1) is used,
because `Number(x) || d` also falls back on zero. -/
theorem summary_zero_counterexample :
    jsNumber (jget (.jobj [("total_records", .jnum 0)]) "total_records") = some 0
  ∧ (finalSummary (.jobj [("total_records", .jnum 0)])
      [⟨"a", "b", "c", "d", "e", "f", "g"⟩]).total_records = 1
  ∧ (1 : Int) ≠ 0 := by
  refine ⟨rfl, rfl, by decide⟩

/-- C4 amended: with a truthy supplied summary, each numeric field is taken
from the supplied value when it is present, numeric and non-zero; the
fallback (normalized-record count for total_records, 0 otherwise) is used
when the supplied value is absent, non-numeric, or zero;
`high_confidence_rate` is coerced to text with fallback `"0%"`. -/
theorem summary_coercion_amended (sd : JsonValue) (normalized : List EnrichedRecord)
    (hsd : isFalsy sd = false) :
    (∀ n : Int, jsNumber (jget sd "total_records") = some n → n ≠ 0 →
        (finalSummary sd normalized).total_records = n)
  ∧ ((jsNumber (jget sd "total_records") = none ∨
        jsNumber (jget sd "total_records") = some 0) →
        (finalSummary sd normalized).total_records = (normalized.length : Int))
  ∧ (∀ n : Int, jsNumber (jget sd "decision_makers_found") = some n → n ≠ 0 →
        (finalSummary sd normalized).decision_makers_found = n)
  ∧ ((jsNumber (jget sd "decision_makers_found") = none ∨
        jsNumber (jget sd "decision_makers_found") = some 0) →
        (finalSummary sd normalized).decision_makers_found = 0)
  ∧ (∀ n : Int, jsNumber (jget sd "low_confidence_count") = some n → n ≠ 0 →
        (finalSummary sd normalized).low_confidence_count = n)
  ∧ ((jsNumber (jget sd "low_confidence_count") = none ∨
        jsNumber (jget sd "low_confidence_count") = some 0) →
        (finalSummary sd normalized).low_confidence_count = 0)
  ∧ (∀ v, jget sd "high_confidence_rate" = some v → isNullV v = false →
        (finalSummary sd normalized).high_confidence_rate = jsToString v)
  ∧ ((jget sd "high_confidence_rate" = none ∨
        jget sd "high_confidence_rate" = some .jnull) →
        (finalSummary sd normalized).high_confidence_rate = "0%") := by
  simp only [finalSummary, hsd, Bool.false_eq_true, if_false, mkSummary]
  refine ⟨?_, ?_, ?_, ?_, ?_, ?_, ?_, ?_⟩
  · intro n hn hnz; simp [numOr, hn, hnz]
  · rintro (h | h) <;> simp [numOr, h]
  · intro n hn hnz; simp [numOr, hn, hnz]
  · rintro (h | h) <;> simp [numOr, h]
  · intro n hn hnz; simp [numOr, hn, hnz]
  · rintro (h | h) <;> simp [numOr, h]
  · intro v hv hnv; simp [rateStr, hv, hnv]
  · rintro (h | h) <;> simp [rateStr, h, isNullV]

/-- Witness for C4 amended: supplied `total_records = 7` is used as-is. -/
theorem summary_coercion_amended_witness :
    (finalSummary (.jobj [("total_records", .jnum 7)]) []).total_records = 7 :=
  (summary_coercion_amended (.jobj [("total_records", .jnum 7)]) [] rfl).1 7 rfl (by decide)

/-! ## Claim C6 -/

/-- C6: the quoted-field splitter treats commas inside quoted spans as
literal, a doubled quote inside a quoted span as one literal quote, and
quotes need not wrap a whole field; in particular the spec's example line
parses to the single field `Acme, Inc."Global"`. -/
theorem quoted_field_splitter :
    parseCSVLine "\"Acme, Inc.\"\"Global\"\"\"" = ["Acme, Inc.\"Global\""]
  ∧ parseCSVLine "ab\"c,d\"e,f" = ["abc,de", "f"]
  ∧ parseCSVLine "a,\"b,c\",d" = ["a", "b,c", "d"] :=
  ⟨rfl, rfl, rfl⟩

/-! ## Claim C2 -/

/-- C2: for a non-empty array of record objects whose first element has a
subject attribute (name/company) and an enrichment attribute
(revenue/sector/decision_maker), the three response shapes
`{result: {enriched_data: A}}`, `{response: s}` with `s` lenient-decoding to
`{enriched_data: A}`, and the bare array `A` all extract and normalize to the
same record sequence. -/
theorem extraction_shape_invariance (decode : String → Option JsonValue) (s : String)
    (f0 : List (String × JsonValue)) (rest : List JsonValue)
    (hsubj : (hasKey (.jobj f0) "name" || hasKey (.jobj f0) "company") = true)
    (henr : (hasKey (.jobj f0) "revenue" || hasKey (.jobj f0) "sector"
        || hasKey (.jobj f0) "decision_maker") = true)
    (hs : s ≠ "")
    (hdec : decode s = some (.jobj [("enriched_data", .jarr (.jobj f0 :: rest))])) :
    normalizeAll (deepExtract decode
        (.jobj [("result", .jobj [("enriched_data", .jarr (.jobj f0 :: rest))])]) 0).enriched
      = normalizeAll (.jobj f0 :: rest)
  ∧ normalizeAll (deepExtract decode (.jobj [("response", .jstr s)]) 0).enriched
      = normalizeAll (.jobj f0 :: rest)
  ∧ normalizeAll (deepExtract decode (.jarr (.jobj f0 :: rest)) 0).enriched
      = normalizeAll (.jobj f0 :: rest) := by
  have hs' : (s == "") = false := beq_eq_false_iff_ne.mpr hs
  refine ⟨rfl, ?_, ?_⟩
  · have hload : extractGo decode 10 (.jstr s) = ⟨.jobj f0 :: rest, .jnull, []⟩ := by
      show bodyStep decode (extractGo decode 9) (.jstr s) = _
      simp only [bodyStep, isFalsy, hs', hdec, isObjLike, Bool.false_eq_true, if_false,
        if_true]
      rfl
    show normalizeAll (bodyStep decode (extractGo decode 10)
        (.jobj [("response", .jstr s)])).enriched = _
    simp [bodyStep, isFalsy, jget, lookupField, arrayRecordPattern, wrapperVals,
      wrapperKeys, notNullish, extractList, hload]
  · show normalizeAll (bodyStep decode (extractGo decode 10)
        (.jarr (.jobj f0 :: rest))).enriched = _
    simp [bodyStep, isFalsy, jget, arrayRecordPattern, isObjLike, hsubj, henr, arrElems]

/-- Witness for C2 on a one-record array and a concrete lenient decoder. -/
theorem extraction_shape_invariance_witness :
    normalizeAll (deepExtract
        (fun t => if t == "PAYLOAD"
          then some (.jobj [("enriched_data",
            .jarr [.jobj [("name", .jstr "Jane"), ("revenue", .jstr "$1M")]])])
          else none)
        (.jobj [("response", .jstr "PAYLOAD")]) 0).enriched
      = normalizeAll [.jobj [("name", .jstr "Jane"), ("revenue", .jstr "$1M")]] :=
  (extraction_shape_invariance
    (fun t => if t == "PAYLOAD"
      then some (.jobj [("enriched_data",
        .jarr [.jobj [("name", .jstr "Jane"), ("revenue", .jstr "$1M")]])])
      else none)
    "PAYLOAD" [("name", .jstr "Jane"), ("revenue", .jstr "$1M")] []
    (by decide) (by decide) (by decide) rfl).2.1

/-! ## Claim C10 -/

theorem extractList_all_empty (f : JsonValue → ExtractionResult) :
    ∀ vs, (∀ w ∈ vs, (f w).enriched = []) → extractList f vs = emptyResult := by
  intro vs
  induction vs with
  | nil => intro _; rfl
  | cons v rest ih =>
    intro h
    have hv : (f v).enriched = [] := h v (by simp)
    have hrest := ih (fun w hw => h w (by simp [hw]))
    simp [extractList, hv, hrest]

/-- C10: an object whose `enriched_data` key holds an empty array, and whose
wrapper-key probes all come back with empty enriched sets, makes the
extraction return at the literal key scan with the empty enriched set, the
sibling summary and no artifacts — it never falls through to the exhaustive
recursion over the remaining keys, so enrichment arrays under other keys are
not found. -/
theorem empty_enriched_array_shortcircuit (decode : String → Option JsonValue)
    (fields : List (String × JsonValue)) (depth : Nat)
    (hd : depth ≤ 10)
    (he : jget (.jobj fields) "enriched_data" = some (.jarr []))
    (hw : ∀ w ∈ wrapperVals (.jobj fields),
        (deepExtract decode w (depth + 1)).enriched = []) :
    deepExtract decode (.jobj fields) depth = ⟨[], jsummaryOf (.jobj fields), []⟩ := by
  have hfuel : 11 - depth = (10 - depth) + 1 := by omega
  have hfuel2 : 11 - (depth + 1) = 10 - depth := by omega
  unfold deepExtract at hw ⊢
  simp only [hfuel2] at hw
  rw [hfuel]
  show bodyStep decode (extractGo decode (10 - depth)) (.jobj fields) = _
  have hlist : extractList (extractGo decode (10 - depth)) (wrapperVals (.jobj fields))
      = emptyResult := extractList_all_empty _ _ hw
  simp [bodyStep, isFalsy, he, arrayRecordPattern, hlist, emptyResult]

/-- Witness for C10: the non-empty enrichment array under the non-wrapper key
`zzz` is ignored; the result carries the sibling summary and nothing else. -/
theorem empty_enriched_array_shortcircuit_witness :
    deepExtract (fun _ => none)
      (.jobj [("enriched_data", .jarr []), ("summary", .jstr "S"),
        ("zzz", .jobj [("enriched_data",
          .jarr [.jobj [("name", .jstr "A"), ("revenue", .jstr "1")]])])]) 0
      = ⟨[], .jstr "S", []⟩ := by
  refine empty_enriched_array_shortcircuit (fun _ => none) _ 0 (by omega) rfl ?_
  intro w hw
  have hnil : wrapperVals (.jobj [("enriched_data", .jarr []), ("summary", .jstr "S"),
      ("zzz", .jobj [("enriched_data",
        .jarr [.jobj [("name", .jstr "A"), ("revenue", .jstr "1")]])])]) = [] := rfl
  rw [hnil] at hw
  exact absurd hw (List.not_mem_nil w)

/-! ## Row-building lemmas (claims C5 and C7) -/

theorem find?_pred {α : Type} (p : α → Bool) (l : List α) (a : α)
    (h : l.find? p = some a) : p a = true :=
  List.find?_some h

theorem beq_str_false {a b : String} (h : (a == b) = false) : ¬ a = b := by
  intro hh
  rw [hh] at h
  simp at h

theorem rowGet_rowSet_self (row : RowMap) (k v : String) :
    rowGet (rowSet row k v) k = v := by
  unfold rowSet rowGet
  cases h : row.any (fun p => p.1 == k) with
  | true =>
    simp only [if_true, List.find?_map]
    have hpred : ((fun p : String × String => p.1 == k)
        ∘ (fun p : String × String => if p.1 == k then (p.1, v) else p))
        = fun p : String × String => p.1 == k := by
      funext p
      cases hp : (p.1 == k) with
      | true => simp [eq_of_beq hp]
      | false => simp [beq_str_false hp, hp]
    rw [hpred]
    cases hf : row.find? (fun p : String × String => p.1 == k) with
    | none =>
      rw [List.find?_eq_none] at hf
      obtain ⟨p0, hp0, hp0k⟩ := List.any_eq_true.mp h
      exact absurd hp0k (hf p0 hp0)
    | some p0 =>
      have hp0k : (p0.1 == k) = true :=
        find?_pred (fun p : String × String => p.1 == k) row p0 hf
      simp [eq_of_beq hp0k]
  | false =>
    simp only [Bool.false_eq_true, if_false, List.find?_append]
    have hnone : row.find? (fun p : String × String => p.1 == k) = none := by
      rw [List.find?_eq_none]
      intro x hx hpx
      exact (List.any_eq_false.mp h) x hx hpx
    simp [hnone]

theorem rowGet_rowSet_other (row : RowMap) (k v q : String) (h : (k == q) = false) :
    rowGet (rowSet row k v) q = rowGet row q := by
  have hkq : k ≠ q := beq_str_false h
  unfold rowSet rowGet
  cases hany : row.any (fun p => p.1 == k) with
  | true =>
    simp only [if_true, List.find?_map]
    have hpred : ((fun p : String × String => p.1 == q)
        ∘ (fun p : String × String => if p.1 == k then (p.1, v) else p))
        = fun p : String × String => p.1 == q := by
      funext p
      cases hp : (p.1 == k) with
      | true => simp [eq_of_beq hp]
      | false => simp [beq_str_false hp]
    rw [hpred]
    cases hf : row.find? (fun p : String × String => p.1 == q) with
    | none => rfl
    | some p0 =>
      have hp0q : (p0.1 == q) = true :=
        find?_pred (fun p : String × String => p.1 == q) row p0 hf
      have hp0k : (p0.1 == k) = false := by
        cases hc : (p0.1 == k) with
        | false => rfl
        | true => exact absurd (eq_of_beq hp0q) (by rw [eq_of_beq hc]; exact hkq)
      simp [beq_str_false hp0k]
  | false =>
    simp only [Bool.false_eq_true, if_false, List.find?_append]
    cases hf : row.find? (fun p : String × String => p.1 == q) with
    | none => simp [List.find?_cons, h]
    | some p0 => simp

theorem lastWrite_cons (values : List String) (k : String) (p : Nat × String)
    (ps : List (Nat × String)) :
    lastWrite values k (p :: ps)
      = (match lastWrite values k ps with
         | some v => some v
         | none =>
           if decide (p.1 < values.length) && p.2 == k
           then some (trimStr (values.getD p.1 "")) else none) := by
  unfold lastWrite
  cases hc : (decide (p.1 < values.length) && p.2 == k) with
  | true =>
    simp only [List.filter_cons, hc, if_true]
    cases hf : ps.filter (fun p => decide (p.1 < values.length) && p.2 == k) with
    | nil => simp [hc]
    | cons x xs =>
      rw [List.getLast?_cons_cons]
      cases hg : (x :: xs).getLast? with
      | none => simp at hg
      | some y => simp
  | false =>
    simp only [List.filter_cons, hc, Bool.false_eq_true, if_false]
    cases hf : ps.filter (fun p => decide (p.1 < values.length) && p.2 == k) with
    | nil => simp [hc]
    | cons x xs =>
      cases hg : (x :: xs).getLast? with
      | none => simp at hg
      | some y => simp

theorem foldl_copyStep_get (values : List String) (k : String) :
    ∀ (pairs : List (Nat × String)) (row : RowMap),
      rowGet (pairs.foldl (copyStep values) row) k
        = (match lastWrite values k pairs with
           | some v => v
           | none => rowGet row k) := by
  intro pairs
  induction pairs with
  | nil => intro row; rfl
  | cons p ps ih =>
    intro row
    rw [List.foldl_cons, ih, lastWrite_cons]
    cases hlast : lastWrite values k ps with
    | some v => rfl
    | none =>
      cases hc : (decide (p.1 < values.length) && p.2 == k) with
      | true =>
        simp only [hc, if_true]
        have hc2 : decide (p.1 < values.length) = true ∧ (p.2 == k) = true := by
          constructor
          · cases hd : decide (p.1 < values.length) with
            | true => rfl
            | false => rw [hd] at hc; simp at hc
          · cases hd : (p.2 == k) with
            | true => rfl
            | false => rw [hd] at hc; simp at hc
        have hlt : p.1 < values.length := of_decide_eq_true hc2.1
        unfold copyStep
        rw [if_pos hlt, eq_of_beq hc2.2]
        exact rowGet_rowSet_self row k _
      | false =>
        simp only [hc, Bool.false_eq_true, if_false]
        unfold copyStep
        by_cases hlt : p.1 < values.length
        · rw [if_pos hlt]
          have hk : (p.2 == k) = false := by
            cases hh : (p.2 == k) with
            | true =>
              rw [hh, decide_eq_true hlt] at hc
              simp at hc
            | false => rfl
          exact rowGet_rowSet_other row p.2 _ k hk
        · rw [if_neg hlt]

/-! ## Claim C5 -/

/-- C5 counterexample: for the input `x,full_name\nA,B` the claim's exact
six-alias matching detects no name column and predicts the first-column
fallback `A`, but the code's regex `full.?name` matches the header
`full_name`, so the parsed row's name is `B`. -/
theorem name_detection_counterexample :
    (parseCSV "x,full_name\nA,B").map (fun r => rowGet r "name") = ["B"]
  ∧ claimResolvedName ["x", "full_name"] ["A", "B"] = "A"
  ∧ ("B" : String) ≠ "A" :=
  ⟨rfl, rfl, by decide⟩

/-- C5 amended: the name column is the first header matching the
case-insensitive anchored pattern `name`, `person`, or `full`/`contact`
followed by at most one arbitrary character and `name` (so `full_name` and
`fullname` also match); the row's name is the value at that index with
first-column fallback — except that the header-copy loop overwrites the
field whenever some header is literally `name` at an in-range index, the
last such write winning; `company` behaves the same way with its alias
pattern, second-column fallback and literal key `company`. -/
theorem name_company_resolution (headers values : List String) :
    (rowGet (buildRow headers (headers.findIdx? isNameHeader)
        (headers.findIdx? isCompanyHeader) values) "name"
      = (match lastWrite values "name" headers.enum with
         | some v => v
         | none => resolveAt values (headers.findIdx? isNameHeader) 0))
  ∧ (rowGet (buildRow headers (headers.findIdx? isNameHeader)
        (headers.findIdx? isCompanyHeader) values) "company"
      = (match lastWrite values "company" headers.enum with
         | some v => v
         | none => resolveAt values (headers.findIdx? isCompanyHeader) 1))
  ∧ isNameHeader "full_name" = true
  ∧ isNameHeader "Full.Name" = true
  ∧ isNameHeader "fullname" = true
  ∧ isNameHeader "fullish name" = false
  ∧ isNameHeader "the name" = false
  ∧ isCompanyHeader "company_name" = true := by
  refine ⟨?_, ?_, rfl, rfl, rfl, rfl, rfl, rfl⟩
  · unfold buildRow applyHeaderCopies
    rw [foldl_copyStep_get]
    cases lastWrite values "name" headers.enum <;> rfl
  · unfold buildRow applyHeaderCopies
    rw [foldl_copyStep_get]
    cases lastWrite values "company" headers.enum <;> rfl

/-! ## Claim C7 -/

theorem parseCSVLineAux_ne_nil (cs : List Char) (q : Bool) (cur : String)
    (acc : List String) : parseCSVLineAux cs q cur acc ≠ [] := by
  induction cs, q, cur, acc using parseCSVLineAux.induct <;>
    simp only [parseCSVLineAux] <;> first | assumption | simp

theorem parseCSVLine_ne_nil (line : String) : parseCSVLine line ≠ [] :=
  parseCSVLineAux_ne_nil line.data false "" []

theorem filterMap_csvRowOf_length (headers : List String) (nIdx cIdx : Option Nat) :
    ∀ ls : List String,
      (ls.filterMap (csvRowOf headers nIdx cIdx)).length
        = ls.length - (ls.filter (rowBothEmpty headers nIdx cIdx)).length := by
  intro ls
  induction ls with
  | nil => rfl
  | cons l rest ih =>
    have hne : (parseCSVLine l).isEmpty = false := by
      cases h : parseCSVLine l with
      | nil => exact absurd h (parseCSVLine_ne_nil l)
      | cons a b => rfl
    have hle : (rest.filter (rowBothEmpty headers nIdx cIdx)).length ≤ rest.length :=
      List.length_filter_le _ _
    cases hb : rowBothEmpty headers nIdx cIdx l with
    | true =>
      have h12 := Bool.and_eq_true_iff.mp (by
        have hb2 := hb
        unfold rowBothEmpty at hb2
        exact hb2)
      have hcsv : csvRowOf headers nIdx cIdx l = none := by
        simp only [csvRowOf, hne, Bool.false_eq_true, if_false, h12.1, h12.2]
        rfl
      rw [List.filterMap_cons, hcsv]
      simp only [List.filter_cons, hb, if_true, List.length_cons, ih]
      omega
    | false =>
      have hb2 : ((rowGet (buildRow headers nIdx cIdx (parseCSVLine l)) "name" == "") &&
          (rowGet (buildRow headers nIdx cIdx (parseCSVLine l)) "company" == "")) = false := by
        have := hb
        unfold rowBothEmpty at this
        exact this
      have hcsv : csvRowOf headers nIdx cIdx l
          = some (buildRow headers nIdx cIdx (parseCSVLine l)) := by
        simp only [csvRowOf, hne, Bool.false_eq_true, if_false]
        rw [if_pos]
        rw [Bool.and_eq_false_iff] at hb2
        cases hb2 with
        | inl h1 => simp [h1]
        | inr h2 => simp [h2]
      rw [List.filterMap_cons, hcsv]
      simp only [List.filter_cons, hb, Bool.false_eq_true, if_false, List.length_cons, ih]
      omega

/-- C7: with at least a header and one data line among the non-blank lines,
`parseCSV` returns one row per non-blank data line minus the lines whose
resolved name and company are both empty; fewer than two non-blank lines
yield the empty sequence. -/
theorem parse_row_count (text : String) :
    ((nonBlankLines text).length < 2 → parseCSV text = [])
  ∧ (∀ headerLine dataLines, nonBlankLines text = headerLine :: dataLines →
      2 ≤ (nonBlankLines text).length →
      (parseCSV text).length
        = dataLines.length
          - (dataLines.filter (rowBothEmpty (parseHeaders headerLine)
              ((parseHeaders headerLine).findIdx? isNameHeader)
              ((parseHeaders headerLine).findIdx? isCompanyHeader))).length) := by
  constructor
  · intro h
    unfold parseCSV
    simp [h]
  · intro headerLine dataLines hln hlen
    unfold parseCSV
    rw [hln] at hlen ⊢
    rw [if_neg (by omega)]
    exact filterMap_csvRowOf_length _ _ _ dataLines

/-- Witness for C7: two data lines, one of which has empty name and company
and is discarded, so exactly one row is parsed. -/
theorem parse_row_count_witness :
    (parseCSV "Name,Company\nJane,Acme\n \" \",\n").length = 1 :=
  (parse_row_count "Name,Company\nJane,Acme\n \" \",\n").2
    "Name,Company" ["Jane,Acme", " \" \","] rfl (by decide)

/-! ## Claim C8 -/

/-- C8 counterexample: when the decoded raw string holds an empty
artifact-file array at the first raw path and a non-empty one at the second,
the code returns the empty sequence (the raw-path probes accept any
array-typed value, not only non-empty ones), while the claim's
first-non-empty probing would return the non-empty array. -/
theorem artifact_locator_counterexample :
    extractArtifactFiles cexDecode cexEnvelope = []
  ∧ claimArtifactLocate cexDecode cexEnvelope = [cexFile]
  ∧ ([] : List JsonValue) ≠ [cexFile] := by
  refine ⟨rfl, rfl, ?_⟩
  intro h
  exact List.noConfusion h

/-- C8 amended: the locator probes, in order, the top-level nested
output-files path and the same path under the response field, each requiring
a non-empty array; when both miss and a non-empty raw response string is
present, it decodes the string independently and returns the artifact array
at the first of the same two paths whose value is array-typed — even when
that array is empty; a decode failure yields the empty sequence (swallowed,
never propagated), as does the absence of any match. -/
theorem artifact_locator_amended (decode : String → Option JsonValue)
    (result : JsonValue) (hres : isFalsy result = false) :
    (∀ x xs, jpath result ["module_outputs", "artifact_files"] = some (.jarr (x :: xs)) →
        extractArtifactFiles decode result = x :: xs)
  ∧ (isNonEmptyArr (jpath result ["module_outputs", "artifact_files"]) = false →
      ∀ x xs,
        jpath result ["response", "module_outputs", "artifact_files"]
          = some (.jarr (x :: xs)) →
        extractArtifactFiles decode result = x :: xs)
  ∧ (isNonEmptyArr (jpath result ["module_outputs", "artifact_files"]) = false →
      isNonEmptyArr (jpath result ["response", "module_outputs", "artifact_files"]) = false →
      ∀ s, jget result "raw_response" = some (.jstr s) → s ≠ "" → decode s = none →
        extractArtifactFiles decode result = [])
  ∧ (isNonEmptyArr (jpath result ["module_outputs", "artifact_files"]) = false →
      isNonEmptyArr (jpath result ["response", "module_outputs", "artifact_files"]) = false →
      ∀ s raw, jget result "raw_response" = some (.jstr s) → s ≠ "" →
        decode s = some raw →
        (∀ ys, jpath raw ["module_outputs", "artifact_files"] = some (.jarr ys) →
            extractArtifactFiles decode result = ys)
        ∧ (isArrOpt (jpath raw ["module_outputs", "artifact_files"]) = false →
            ∀ ys,
              jpath raw ["response", "module_outputs", "artifact_files"]
                = some (.jarr ys) →
              extractArtifactFiles decode result = ys)
        ∧ (isArrOpt (jpath raw ["module_outputs", "artifact_files"]) = false →
            isArrOpt (jpath raw ["response", "module_outputs", "artifact_files"]) = false →
            extractArtifactFiles decode result = []))
  ∧ (isNonEmptyArr (jpath result ["module_outputs", "artifact_files"]) = false →
      isNonEmptyArr (jpath result ["response", "module_outputs", "artifact_files"]) = false →
      jget result "raw_response" = none → extractArtifactFiles decode result = []) := by
  refine ⟨?_, ?_, ?_, ?_, ?_⟩
  · intro x xs h1
    simp only [extractArtifactFiles, hres, Bool.false_eq_true, if_false, h1]
    rfl
  · intro h1 x xs h2
    simp only [extractArtifactFiles, hres, Bool.false_eq_true, if_false, h1, h2]
    rfl
  · intro h1 h2 s hraw hs hdec
    have hs' : (s == "") = false := beq_eq_false_iff_ne.mpr hs
    simp only [extractArtifactFiles, hres, Bool.false_eq_true, if_false, h1, h2, hraw,
      hs', hdec]
  · intro h1 h2 s raw hraw hs hdec
    have hs' : (s == "") = false := beq_eq_false_iff_ne.mpr hs
    refine ⟨?_, ?_, ?_⟩
    · intro ys hy1
      simp only [extractArtifactFiles, hres, Bool.false_eq_true, if_false, h1, h2, hraw,
        hs', hdec, hy1]
      rfl
    · intro hy1 ys hy2
      simp only [extractArtifactFiles, hres, Bool.false_eq_true, if_false, h1, h2, hraw,
        hs', hdec, hy1, hy2]
      rfl
    · intro hy1 hy2
      simp only [extractArtifactFiles, hres, Bool.false_eq_true, if_false, h1, h2, hraw,
        hs', hdec, hy1, hy2]
  · intro h1 h2 hraw
    simp only [extractArtifactFiles, hres, Bool.false_eq_true, if_false, h1, h2, hraw]

/-- Witness for C8 amended: a non-empty top-level probe is returned as-is. -/
theorem artifact_locator_amended_witness :
    extractArtifactFiles (fun _ => none)
      (.jobj [("module_outputs", .jobj [("artifact_files", .jarr [.jstr "f1"])])])
      = [.jstr "f1"] :=
  (artifact_locator_amended (fun _ => none)
    (.jobj [("module_outputs", .jobj [("artifact_files", .jarr [.jstr "f1"])])])
    rfl).1 (.jstr "f1") [] rfl

/-! ## Claim C9 -/

theorem lexLe_refl (cs : List Char) : lexLe cs cs = true := by
  induction cs with
  | nil => rfl
  | cons c rest ih => simp [lexLe, ih]

theorem strLe_refl (s : String) : strLe s s = true := lexLe_refl s.data

theorem lexLe_total (a b : List Char) : lexLe a b = true ∨ lexLe b a = true := by
  induction a generalizing b with
  | nil => left; rfl
  | cons x xs ih =>
    cases b with
    | nil => right; rfl
    | cons y ys =>
      by_cases h1 : x.toNat < y.toNat
      · left; simp [lexLe, h1]
      · by_cases h2 : y.toNat < x.toNat
        · right; simp [lexLe, h2]
        · cases ih ys with
          | inl h => left; simp [lexLe, h1, h2, h]
          | inr h => right; simp [lexLe, h1, h2, h]

theorem lexLe_trans : ∀ a b c : List Char,
    lexLe a b = true → lexLe b c = true → lexLe a c = true := by
  intro a
  induction a with
  | nil => intro b c _ _; rfl
  | cons x xs ih =>
    intro b c hab hbc
    cases b with
    | nil => simp [lexLe] at hab
    | cons y ys =>
      cases c with
      | nil => simp [lexLe] at hbc
      | cons z zs =>
        simp only [lexLe] at hab hbc ⊢
        rcases Nat.lt_trichotomy x.toNat y.toNat with hxy | hxy | hxy
        · rcases Nat.lt_trichotomy y.toNat z.toNat with hyz | hyz | hyz
          · simp [Nat.lt_trans hxy hyz]
          · simp [show x.toNat < z.toNat by omega]
          · rw [if_neg (by omega), if_pos (by omega)] at hbc
            exact absurd hbc (by simp)
        · rw [if_neg (by omega), if_neg (by omega)] at hab
          rcases Nat.lt_trichotomy y.toNat z.toNat with hyz | hyz | hyz
          · simp [show x.toNat < z.toNat by omega]
          · rw [if_neg (by omega), if_neg (by omega)] at hbc
            rw [if_neg (by omega), if_neg (by omega)]
            exact ih ys zs hab hbc
          · rw [if_neg (by omega), if_pos (by omega)] at hbc
            exact absurd hbc (by simp)
        · rw [if_neg (by omega), if_pos (by omega)] at hab
          exact absurd hab (by simp)

theorem sortLe_total (f : SortField) (d : SortDir) (a b : EnrichedRecord) :
    sortLe f d a b = true ∨ sortLe f d b a = true := by
  cases d with
  | asc => exact lexLe_total (sortKey f a).data (sortKey f b).data
  | desc => exact lexLe_total (sortKey f b).data (sortKey f a).data

theorem sortLe_trans (f : SortField) (d : SortDir) :
    ∀ a b c : EnrichedRecord,
      sortLe f d a b = true → sortLe f d b c = true → sortLe f d a c = true := by
  intro a b c hab hbc
  cases d with
  | asc => exact lexLe_trans _ _ _ hab hbc
  | desc => exact lexLe_trans _ _ _ hbc hab

theorem insertStable_perm (le : EnrichedRecord → EnrichedRecord → Bool)
    (x : EnrichedRecord) (l : List EnrichedRecord) :
    (insertStable le x l).Perm (x :: l) := by
  induction l with
  | nil => exact List.Perm.refl _
  | cons b bs ih =>
    unfold insertStable
    by_cases h : le x b = true
    · rw [if_pos h]
    · rw [if_neg h]
      exact (List.Perm.cons b ih).trans (List.Perm.swap x b bs)

theorem stableSort_perm (le : EnrichedRecord → EnrichedRecord → Bool) :
    ∀ l : List EnrichedRecord, (stableSort le l).Perm l := by
  intro l
  induction l with
  | nil => exact List.Perm.refl _
  | cons x xs ih =>
    unfold stableSort
    exact (insertStable_perm le x (stableSort le xs)).trans (List.Perm.cons x ih)

theorem insertStable_pairwise (le : EnrichedRecord → EnrichedRecord → Bool)
    (htot : ∀ a b, le a b = true ∨ le b a = true)
    (htr : ∀ a b c, le a b = true → le b c = true → le a c = true)
    (x : EnrichedRecord) :
    ∀ l, l.Pairwise (fun a b => le a b = true) →
      (insertStable le x l).Pairwise (fun a b => le a b = true) := by
  intro l
  induction l with
  | nil => intro _; simp [insertStable]
  | cons b bs ih =>
    intro hl
    have hb := List.pairwise_cons.mp hl
    unfold insertStable
    by_cases h : le x b = true
    · rw [if_pos h]
      refine List.pairwise_cons.mpr ⟨?_, hl⟩
      intro c hc
      rcases List.mem_cons.mp hc with rfl | hcbs
      · exact h
      · exact htr x b c h (hb.1 c hcbs)
    · rw [if_neg h]
      refine List.pairwise_cons.mpr ⟨?_, ih hb.2⟩
      intro c hc
      have hc' : c ∈ x :: bs := ((insertStable_perm le x bs).mem_iff).mp hc
      rcases List.mem_cons.mp hc' with rfl | hcbs
      · rcases htot c b with h1 | h1
        · exact absurd h1 h
        · exact h1
      · exact hb.1 c hcbs

theorem stableSort_pairwise (le : EnrichedRecord → EnrichedRecord → Bool)
    (htot : ∀ a b, le a b = true ∨ le b a = true)
    (htr : ∀ a b c, le a b = true → le b c = true → le a c = true) :
    ∀ l : List EnrichedRecord,
      (stableSort le l).Pairwise (fun a b => le a b = true) := by
  intro l
  induction l with
  | nil => simp [stableSort]
  | cons x xs ih =>
    unfold stableSort
    exact insertStable_pairwise le htot htr x _ ih

theorem stableSort_of_sorted (le : EnrichedRecord → EnrichedRecord → Bool) :
    ∀ l : List EnrichedRecord, l.Pairwise (fun a b => le a b = true) →
      stableSort le l = l := by
  intro l
  induction l with
  | nil => intro _; rfl
  | cons x xs ih =>
    intro hl
    have hx := List.pairwise_cons.mp hl
    unfold stableSort
    rw [ih hx.2]
    cases xs with
    | nil => rfl
    | cons b bs =>
      unfold insertStable
      rw [if_pos (hx.1 b (by simp))]

theorem filter_insertStable (le : EnrichedRecord → EnrichedRecord → Bool)
    (p : EnrichedRecord → Bool)
    (hcompat : ∀ a b, p a = true → p b = true → le a b = true)
    (x : EnrichedRecord) :
    ∀ l, (insertStable le x l).filter p
      = if p x then x :: l.filter p else l.filter p := by
  intro l
  induction l with
  | nil => cases hp : p x <;> simp [insertStable, List.filter, hp]
  | cons b bs ih =>
    unfold insertStable
    by_cases h : le x b = true
    · rw [if_pos h]
      cases hp : p x <;> simp [List.filter_cons, hp]
    · rw [if_neg h]
      rw [List.filter_cons, List.filter_cons]
      cases hpb : p b with
      | true =>
        cases hpx : p x with
        | true => exact absurd (hcompat x b hpx hpb) h
        | false => simp [ih, hpx]
      | false =>
        cases hpx : p x with
        | true => simp [ih, hpx]
        | false => simp [ih, hpx]

theorem filter_stableSort (le : EnrichedRecord → EnrichedRecord → Bool)
    (p : EnrichedRecord → Bool)
    (hcompat : ∀ a b, p a = true → p b = true → le a b = true) :
    ∀ l : List EnrichedRecord, (stableSort le l).filter p = l.filter p := by
  intro l
  induction l with
  | nil => rfl
  | cons x xs ih =>
    unfold stableSort
    rw [filter_insertStable le p hcompat x _, List.filter_cons, ih]

/-- C9: filtering yields an order-preserving subsequence; sorting orders the
filtered records by the case-insensitive key and is stable (records with an
equal key keep their filtered relative order); running the same
filter-then-sort a second time returns the same sequence. -/
theorem query_engine_properties (data : List EnrichedRecord) (mode : FilterMode)
    (f : SortField) (d : SortDir) :
    (applyFilter mode data).Sublist data
  ∧ (getFilteredData mode f d data).Pairwise (fun a b => sortLe f d a b = true)
  ∧ (∀ k : String, (getFilteredData mode f d data).filter (fun r => sortKey f r == k)
        = (applyFilter mode data).filter (fun r => sortKey f r == k))
  ∧ getFilteredData mode f d (getFilteredData mode f d data)
      = getFilteredData mode f d data := by
  have htot := sortLe_total f d
  have htr := sortLe_trans f d
  refine ⟨?_, ?_, ?_, ?_⟩
  · cases mode with
    | all => exact List.Sublist.refl data
    | low_confidence => exact List.filter_sublist data
    | decision_makers => exact List.filter_sublist data
  · exact stableSort_pairwise _ htot htr _
  · intro k
    refine filter_stableSort _ _ ?_ _
    intro a b ha hb
    have ha' := eq_of_beq ha
    have hb' := eq_of_beq hb
    cases d with
    | asc =>
      show strLe (sortKey f a) (sortKey f b) = true
      rw [ha', hb']
      exact strLe_refl k
    | desc =>
      show strLe (sortKey f b) (sortKey f a) = true
      rw [ha', hb']
      exact strLe_refl k
  · unfold getFilteredData
    have hmem : ∀ r ∈ stableSort (sortLe f d) (applyFilter mode data),
        r ∈ applyFilter mode data := by
      intro r hr
      exact (stableSort_perm _ _).mem_iff.mp hr
    have hfix : applyFilter mode (stableSort (sortLe f d) (applyFilter mode data))
        = stableSort (sortLe f d) (applyFilter mode data) := by
      cases mode with
      | all => rfl
      | low_confidence =>
        refine List.filter_eq_self.mpr ?_
        intro a ha
        have hmem' : a ∈ List.filter (fun r => containsCI r.confidence "low") data :=
          hmem a ha
        exact (List.mem_filter.mp hmem').2
      | decision_makers =>
        refine List.filter_eq_self.mpr ?_
        intro a ha
        have hmem' : a ∈ List.filter (fun r => containsCI r.decision_maker "yes") data :=
          hmem a ha
        exact (List.mem_filter.mp hmem').2
    rw [hfix]
    exact stableSort_of_sorted _ _ (stableSort_pairwise _ htot htr _)

end Enricher
